import Mathlib

set_option linter.unusedVariables false

/-!
Verification development for the tinyUpload file server core (src/main.go).
Strings from the Go code are embedded as lists of byte values (`Str`), the
SQLite `files` table as a list of `FileRecord`, the upload directory tree as
an association list of blobs plus a list of per-path directories, and each
HTTP handler as a pure function on `ServerState`.  The random source consumed
by `crypto/rand` is passed in as an explicit stream of draws.
-/

/-- Go strings are byte sequences; we embed them as lists of byte values. -/
abbrev Str := List Nat

/-- Byte values of the constant `chars` alphabet in `generateRandomString`
(`"0123456789abcdefghijklmnopqrstuvwxyzABCDEFGHIJKLMNOPQRSTUVWXYZ"`). -/
def chars : Str :=
  [48, 49, 50, 51, 52, 53, 54, 55, 56, 57,
   97, 98, 99, 100, 101, 102, 103, 104, 105, 106, 107, 108, 109, 110, 111,
   112, 113, 114, 115, 116, 117, 118, 119, 120, 121, 122,
   65, 66, 67, 68, 69, 70, 71, 72, 73, 74, 75, 76, 77, 78, 79, 80, 81, 82,
   83, 84, 85, 86, 87, 88, 89, 90]

/-- Embedding of `generateRandomString` from main.go: each character is
`chars[n]` for a draw `n` of `rand.Int(rand.Reader, 62)`; the draw stream is
explicit and each draw is reduced into the range `[0, 62)`. -/
def generateRandomString (len : Nat) (draws : Nat → Nat) : Str :=
  (List.range len).map (fun i => chars.getD (draws i % 62) 0)

/-- Embedding of `generateRandomPath` from main.go. -/
def generateRandomPath (draws : Nat → Nat) : Str :=
  generateRandomString 4 draws

/-- Bytes Go's `url.QueryEscape` leaves unescaped: alphanumerics and
`-`, `.`, `_`, `~`. -/
def isUnreservedByte (c : Nat) : Bool :=
  (48 ≤ c && c ≤ 57) || (65 ≤ c && c ≤ 90) || (97 ≤ c && c ≤ 122) ||
  c == 45 || c == 46 || c == 95 || c == 126

/-- Upper-case hexadecimal digit byte, as used by Go's percent-encoder. -/
def upperHexDigit (n : Nat) : Nat :=
  if n < 10 then 48 + n else 55 + n

/-- Embedding of Go's `url.QueryEscape`: unreserved bytes kept, space
(byte 32) becomes `+` (byte 43), every other byte becomes `%XX`. -/
def queryEscape : Str → Str
  | [] => []
  | c :: rest =>
    if isUnreservedByte c then c :: queryEscape rest
    else if c == 32 then 43 :: queryEscape rest
    else 37 :: upperHexDigit (c / 16 % 16) :: upperHexDigit (c % 16) :: queryEscape rest

/-- Value of a hexadecimal digit byte, or `none` for a non-hex byte. -/
def unhexDigit (c : Nat) : Option Nat :=
  if 48 ≤ c && c ≤ 57 then some (c - 48)
  else if 65 ≤ c && c ≤ 70 then some (c - 55)
  else if 97 ≤ c && c ≤ 102 then some (c - 87)
  else none

/-- Embedding of Go's `url.QueryUnescape`: `%XX` decodes to a byte, `+`
(byte 43) decodes to a space, a malformed `%` sequence is an error. -/
def queryUnescape : Str → Option Str
  | [] => some []
  | 37 :: h :: l :: rest =>
    match unhexDigit h, unhexDigit l, queryUnescape rest with
    | some hv, some lv, some r => some ((16 * hv + lv) :: r)
    | _, _, _ => none
  | 37 :: _ => none
  | 43 :: rest => (queryUnescape rest).map (fun r => 32 :: r)
  | c :: rest => (queryUnescape rest).map (fun r => c :: r)

/-- One row of the SQLite `files` table created in `NewFileServer`. -/
structure FileRecord where
  path : Str
  filename : Str
  encodedFilename : Str
  deleteCode : Str
  uploadTime : Nat
  fileSize : Nat
  mimeType : Str
  downloadCount : Nat
deriving DecidableEq

/-- The on-disk upload tree: each entry maps a `(path, filename)` pair to the
stored byte content. -/
abbrev BlobStore := List ((Str × Str) × Str)

/-- Reading the file stored for `(p, fn)`, `none` when it does not exist. -/
def blobLookup (blobs : BlobStore) (p fn : Str) : Option Str :=
  (blobs.find? (fun e => decide (e.1.1 = p ∧ e.1.2 = fn))).map (fun e => e.2)

/-- Embedding of `os.Remove` on a file: drops the `(p, fn)` entry. -/
def blobRemove (p fn : Str) (blobs : BlobStore) : BlobStore :=
  blobs.filter (fun e => !(decide (e.1.1 = p ∧ e.1.2 = fn)))

/-- Embedding of `os.WriteFile`: truncates any existing file at `(p, fn)` and
stores `content` there. -/
def blobWrite (p fn content : Str) (blobs : BlobStore) : BlobStore :=
  blobRemove p fn blobs ++ [((p, fn), content)]

/-- The whole server state: the `files` table, the blob tree and the set of
per-path directories under the upload root. -/
structure ServerState where
  records : List FileRecord
  blobs : BlobStore
  dirs : List Str
deriving DecidableEq

/-- Embedding of `os.MkdirAll` for a path directory: idempotent creation. -/
def dirsInsert (p : Str) (dirs : List Str) : List Str :=
  if p ∈ dirs then dirs else dirs ++ [p]

/-- Embedding of the best-effort `os.Remove(dirPath)`: removing a directory
succeeds only when no file under that path remains, and failure is ignored. -/
def removeDirBestEffort (blobs : BlobStore) (p : Str) (dirs : List Str) : List Str :=
  if blobs.any (fun e => decide (e.1.1 = p)) then dirs
  else dirs.filter (fun q => !(decide (q = p)))

/-- Outcome of `handleUpload`, one constructor per `return` site that the
embedding models (400 invalid filename, 400 no filename, 400 empty content,
500 insert failure, 200 success). -/
inductive UploadResult where
  | invalidFilename
  | noFilename
  | emptyContent
  | insertFailed
  | success (p deleteCode : Str) (size : Nat)
deriving DecidableEq

/-- Embedding of `handleUpload` from main.go.  `rawFilename` is the
`:filename` route parameter; `cdFilename` is the filename extracted from the
`Content-Disposition` header by `mime.ParseMediaType` (empty when absent or
unparsable); `mimeHdr`, `mimeExt` and `mimeSniff` are the declared
`Content-Type`, `mime.TypeByExtension` and `http.DetectContentType` oracles;
`now` is the insert timestamp; `pathDraws` and `codeDraws` are the random
streams consumed by `generateRandomPath` and `generateRandomString`. -/
def handleUpload (st : ServerState)
    (rawFilename cdFilename body mimeHdr mimeExt mimeSniff : Str) (now : Nat)
    (pathDraws codeDraws : Nat → Nat) : UploadResult × ServerState :=
  match queryUnescape rawFilename with
  | none => (.invalidFilename, st)
  | some d0 =>
    let d := if d0 = [] then cdFilename else d0
    if d = [] then (.noFilename, st)
    else
      let p := generateRandomPath pathDraws
      let dirs1 := dirsInsert p st.dirs
      let ef := queryEscape d
      if body = [] then (.emptyContent, { st with dirs := dirs1 })
      else
        let blobs1 := blobWrite p d body st.blobs
        let size := body.length
        let mt := if mimeHdr = [] then (if mimeExt = [] then mimeSniff else mimeExt) else mimeHdr
        let code := generateRandomString 8 codeDraws
        if st.records.any (fun r => decide (r.path = p ∧ r.encodedFilename = ef)) = true then
          (.insertFailed, { st with blobs := blobRemove p d blobs1, dirs := dirs1 })
        else
          (.success p code size,
            { records := st.records ++
                [{ path := p, filename := d, encodedFilename := ef, deleteCode := code,
                   uploadTime := now, fileSize := size, mimeType := mt, downloadCount := 0 }],
              blobs := blobs1, dirs := dirs1 })

/-- Outcome of `handleDownload`: a 404, or the file served with its stored
original filename. -/
inductive DownloadResult where
  | notFound
  | serve (filename content : Str)
deriving DecidableEq

/-- The `UPDATE files SET download_count = download_count + 1` statement
applied to one record. -/
def bumpOne (p ef : Str) (r : FileRecord) : FileRecord :=
  if r.path = p ∧ r.encodedFilename = ef then
    { r with downloadCount := r.downloadCount + 1 }
  else r

/-- The download-count update applied across the table. -/
def bumpCount (p ef : Str) (rs : List FileRecord) : List FileRecord :=
  rs.map (bumpOne p ef)

/-- Embedding of `handleDownload` from main.go: URL-unescape the requested
filename, re-escape it, look the record up by `(path, encoded_filename)`,
check the blob exists, bump the download counter, serve the bytes. -/
def handleDownload (st : ServerState) (p requestFilename : Str) :
    DownloadResult × ServerState :=
  match queryUnescape requestFilename with
  | none => (.notFound, st)
  | some d =>
    let ef := queryEscape d
    match st.records.find? (fun r => decide (r.path = p ∧ r.encodedFilename = ef)) with
    | none => (.notFound, st)
    | some r =>
      match blobLookup st.blobs p r.filename with
      | none => (.notFound, st)
      | some content =>
        (.serve r.filename content, { st with records := bumpCount p ef st.records })

/-- Filesystem and store actions performed by `handleDelete`, in order. -/
inductive DeleteEffect where
  | removeBlob (p fn : Str)
  | removeRecord (p ef code : Str)
  | removeDir (p : Str)
deriving DecidableEq

/-- Outcome of `handleDelete`: 404 for an undecodable filename, 400 for an
undecodable delete code, 403 when no row matches the triple, 200 on success. -/
inductive DeleteResult where
  | notFound
  | badCode
  | forbidden
  | ok
deriving DecidableEq

/-- Embedding of `handleDelete` from main.go.  The third component records the
side effects in the order the handler performs them: remove the file, delete
the row, best-effort remove the path directory. -/
def handleDelete (st : ServerState) (p requestFilename rawCode : Str) :
    DeleteResult × ServerState × List DeleteEffect :=
  match queryUnescape requestFilename with
  | none => (.notFound, st, [])
  | some d =>
    let ef := queryEscape d
    match queryUnescape rawCode with
    | none => (.badCode, st, [])
    | some dc =>
      match st.records.find? (fun x =>
          decide (x.path = p ∧ x.encodedFilename = ef ∧ x.deleteCode = dc)) with
      | none => (.forbidden, st, [])
      | some r =>
        let blobs1 := blobRemove p r.filename st.blobs
        let records1 := st.records.filter (fun x =>
          !(decide (x.path = p ∧ x.encodedFilename = ef ∧ x.deleteCode = dc)))
        let dirs1 := removeDirBestEffort blobs1 p st.dirs
        (.ok, { records := records1, blobs := blobs1, dirs := dirs1 },
          [DeleteEffect.removeBlob p r.filename,
           DeleteEffect.removeRecord p ef dc,
           DeleteEffect.removeDir p])

/-- The retention window of `datetime('now', '-3 days')`, in seconds. -/
def retentionSeconds : Nat := 3 * 24 * 60 * 60

/-- A record qualifies for the sweep when `upload_time < now - 3 days`. -/
def isExpired (now : Nat) (r : FileRecord) : Bool :=
  decide (r.uploadTime + retentionSeconds < now)

/-- The row loop of `cleanupExpiredFiles`: for each expired record, remove
its blob (a missing blob is ignored) and best-effort remove its directory. -/
def sweepBlobs (blobs : BlobStore) (dirs : List Str) :
    List FileRecord → BlobStore × List Str
  | [] => (blobs, dirs)
  | r :: rest =>
    let blobs1 := blobRemove r.path r.filename blobs
    let dirs1 := removeDirBestEffort blobs1 r.path dirs
    sweepBlobs blobs1 dirs1 rest

/-- Embedding of `cleanupExpiredFiles` from main.go: list the expired rows,
remove each blob and directory, then delete all expired rows in one grouped
statement. -/
def cleanupExpiredFiles (st : ServerState) (now : Nat) : ServerState :=
  let expired := st.records.filter (isExpired now)
  let swept := sweepBlobs st.blobs st.dirs expired
  { records := st.records.filter (fun r => !(isExpired now r)),
    blobs := swept.1, dirs := swept.2 }

/-- No record of `rs` carries the key `(p, ef)`; this is what the
`UNIQUE(path, encoded_filename)` constraint checks before an insert. -/
def keyFree (p ef : Str) (rs : List FileRecord) : Bool :=
  rs.all (fun r => !(decide (r.path = p ∧ r.encodedFilename = ef)))

/-- The table satisfies the `UNIQUE(path, encoded_filename)` constraint. -/
def distinctKeys : List FileRecord → Bool
  | [] => true
  | r :: rest => keyFree r.path r.encodedFilename rest && distinctKeys rest

/-- Every row's `encoded_filename` column is `url.QueryEscape` of its
`filename` column, as `handleUpload` stores it. -/
def encodedConsistent (rs : List FileRecord) : Bool :=
  rs.all (fun r => decide (r.encodedFilename = queryEscape r.filename))

/-- The reachable-table invariant: escaped filenames are consistent and the
uniqueness constraint holds. -/
def recordsWf (rs : List FileRecord) : Bool :=
  encodedConsistent rs && distinctKeys rs

/-- No record of `rs` carries the raw pair `(p, fn)`. -/
def nameFree (p fn : Str) (rs : List FileRecord) : Bool :=
  rs.all (fun r => !(decide (r.path = p ∧ r.filename = fn)))

/-- No two records of `rs` share a `(path, filename)` pair. -/
def distinctNames : List FileRecord → Bool
  | [] => true
  | r :: rest => nameFree r.path r.filename rest && distinctNames rest

/-- The filename `handleUpload` ends up storing: the decoded route parameter
when non-empty, else the `Content-Disposition` fallback; empty when the route
parameter cannot be decoded. -/
def effectiveUploadName (rawFilename cdFilename : Str) : Str :=
  match queryUnescape rawFilename with
  | none => []
  | some d0 => if d0 = [] then cdFilename else d0

/-- A sample record living at path `"aaaa"` with filename `"f"`. -/
def cRecord : FileRecord :=
  { path := [97, 97, 97, 97], filename := [102], encodedFilename := [102],
    deleteCode := [48, 48, 48, 48, 48, 48, 48, 48], uploadTime := 0,
    fileSize := 1, mimeType := [], downloadCount := 0 }

/-- A sample server state holding `cRecord` and its blob. -/
def cState : ServerState :=
  { records := [cRecord],
    blobs := [(([97, 97, 97, 97], [102]), [1])],
    dirs := [[97, 97, 97, 97]] }

/-- The state of a freshly started server: no records, no blobs, no path
directories. -/
def emptyState : ServerState :=
  { records := [], blobs := [], dirs := [] }

/-- A sample record younger than the retention window at `now = 300000`. -/
def freshRecord : FileRecord :=
  { path := [98, 98, 98, 98], filename := [103], encodedFilename := [103],
    deleteCode := [49, 49, 49, 49, 49, 49, 49, 49], uploadTime := 100000,
    fileSize := 1, mimeType := [], downloadCount := 0 }

/-- A sample state with one expired record (`cRecord`) and one fresh record
(`freshRecord`), both with blobs. -/
def sweepState : ServerState :=
  { records := [cRecord, freshRecord],
    blobs := [(([97, 97, 97, 97], [102]), [1]), (([98, 98, 98, 98], [103]), [2])],
    dirs := [[97, 97, 97, 97], [98, 98, 98, 98]] }

theorem all_of_filter {α : Type} (f q : α → Bool) (l : List α)
    (h : l.all f = true) : (l.filter q).all f = true := by
  rw [List.all_eq_true] at h ⊢
  intro x hx
  exact h x (List.mem_filter.mp hx).1

theorem keyFree_filter (p ef : Str) (q : FileRecord → Bool) (rs : List FileRecord)
    (h : keyFree p ef rs = true) : keyFree p ef (rs.filter q) = true :=
  all_of_filter _ q rs h

theorem distinctKeys_filter (q : FileRecord → Bool) (rs : List FileRecord)
    (h : distinctKeys rs = true) : distinctKeys (rs.filter q) = true := by
  induction rs with
  | nil => exact h
  | cons r rest ih =>
    rw [distinctKeys, Bool.and_eq_true] at h
    rw [List.filter_cons]
    by_cases hq : q r = true
    · rw [if_pos hq, distinctKeys, Bool.and_eq_true]
      exact ⟨keyFree_filter _ _ q rest h.1, ih h.2⟩
    · rw [if_neg hq]
      exact ih h.2

theorem recordsWf_filter (q : FileRecord → Bool) (rs : List FileRecord)
    (h : recordsWf rs = true) : recordsWf (rs.filter q) = true := by
  rw [recordsWf, Bool.and_eq_true] at h ⊢
  exact ⟨all_of_filter _ q rs h.1, distinctKeys_filter q rs h.2⟩

theorem bumpOne_path (p ef : Str) (r : FileRecord) : (bumpOne p ef r).path = r.path := by
  rw [bumpOne]; split <;> rfl

theorem bumpOne_filename (p ef : Str) (r : FileRecord) :
    (bumpOne p ef r).filename = r.filename := by
  rw [bumpOne]; split <;> rfl

theorem bumpOne_encodedFilename (p ef : Str) (r : FileRecord) :
    (bumpOne p ef r).encodedFilename = r.encodedFilename := by
  rw [bumpOne]; split <;> rfl

theorem keyFree_bumpCount (a b p ef : Str) (rs : List FileRecord) :
    keyFree a b (bumpCount p ef rs) = keyFree a b rs := by
  rw [keyFree, keyFree, bumpCount, List.all_map]
  congr 1
  funext r
  rw [Function.comp_apply, bumpOne_path, bumpOne_encodedFilename]

theorem distinctKeys_bumpCount (p ef : Str) (rs : List FileRecord) :
    distinctKeys (bumpCount p ef rs) = distinctKeys rs := by
  induction rs with
  | nil => rfl
  | cons r rest ih =>
    rw [bumpCount, List.map_cons, distinctKeys, distinctKeys, ← bumpCount,
      bumpOne_path, bumpOne_encodedFilename, keyFree_bumpCount, ih]

theorem encodedConsistent_bumpCount (p ef : Str) (rs : List FileRecord) :
    encodedConsistent (bumpCount p ef rs) = encodedConsistent rs := by
  rw [encodedConsistent, encodedConsistent, bumpCount, List.all_map]
  congr 1
  funext r
  rw [Function.comp_apply, bumpOne_filename, bumpOne_encodedFilename]

theorem recordsWf_bumpCount (p ef : Str) (rs : List FileRecord) :
    recordsWf (bumpCount p ef rs) = recordsWf rs := by
  rw [recordsWf, recordsWf, encodedConsistent_bumpCount, distinctKeys_bumpCount]

theorem keyFree_append_one (p ef : Str) (rs : List FileRecord) (x : FileRecord)
    (h1 : keyFree p ef rs = true)
    (h2 : ¬(x.path = p ∧ x.encodedFilename = ef)) :
    keyFree p ef (rs ++ [x]) = true := by
  rw [keyFree, List.all_append, Bool.and_eq_true]
  refine ⟨h1, ?_⟩
  rw [List.all_cons, List.all_nil, Bool.and_true, Bool.not_eq_true', decide_eq_false_iff_not]
  exact h2

theorem distinctKeys_append_one (rs : List FileRecord) (x : FileRecord)
    (h1 : distinctKeys rs = true)
    (h2 : keyFree x.path x.encodedFilename rs = true) :
    distinctKeys (rs ++ [x]) = true := by
  induction rs with
  | nil =>
    rw [List.nil_append, distinctKeys, distinctKeys, keyFree, List.all_nil, Bool.and_true]
  | cons r rest ih =>
    rw [distinctKeys, Bool.and_eq_true] at h1
    rw [keyFree, List.all_cons, Bool.and_eq_true] at h2
    rw [List.cons_append, distinctKeys, Bool.and_eq_true]
    refine ⟨?_, ih h1.2 h2.2⟩
    apply keyFree_append_one _ _ _ _ h1.1
    intro hx
    have h1x := h2.1
    rw [Bool.not_eq_true', decide_eq_false_iff_not] at h1x
    exact h1x ⟨hx.1.symm, hx.2.symm⟩

theorem encodedConsistent_append_one (rs : List FileRecord) (x : FileRecord)
    (h1 : encodedConsistent rs = true)
    (h2 : x.encodedFilename = queryEscape x.filename) :
    encodedConsistent (rs ++ [x]) = true := by
  rw [encodedConsistent, List.all_append, Bool.and_eq_true]
  refine ⟨h1, ?_⟩
  rw [List.all_cons, List.all_nil, Bool.and_true]
  simpa using h2

theorem find_of_mem_unique (pred : FileRecord → Bool) (rs : List FileRecord)
    (r : FileRecord) (hr : r ∈ rs) (hpr : pred r = true)
    (huniq : ∀ x ∈ rs, pred x = true → x = r) :
    rs.find? pred = some r := by
  induction rs with
  | nil => cases hr
  | cons a rest ih =>
    by_cases hpa : pred a = true
    · have ha : a = r := huniq a (List.mem_cons_self a rest) hpa
      rw [List.find?_cons_of_pos rest hpa, ha]
    · rw [List.find?_cons_of_neg rest (by simpa using hpa)]
      rcases List.mem_cons.mp hr with hra | hmem
      · exact absurd (hra ▸ hpr) hpa
      · exact ih hmem (fun x hx hp => huniq x (List.mem_cons_of_mem a hx) hp)

theorem unique_by_key (rs : List FileRecord) (hdk : distinctKeys rs = true)
    (r : FileRecord) (hr : r ∈ rs) (p ef : Str)
    (hrp : r.path = p) (hre : r.encodedFilename = ef) :
    ∀ x ∈ rs, x.path = p ∧ x.encodedFilename = ef → x = r := by
  induction rs with
  | nil => intro x hx; cases hx
  | cons a rest ih =>
    rw [distinctKeys, Bool.and_eq_true] at hdk
    have hfree := List.all_eq_true.mp hdk.1
    intro x hx hxkey
    rcases List.mem_cons.mp hr with hra | hrmem
    · rcases List.mem_cons.mp hx with hxa | hxmem
      · rw [hxa, hra]
      · exfalso
        have := hfree x hxmem
        rw [Bool.not_eq_true', decide_eq_false_iff_not] at this
        exact this ⟨hxkey.1.trans (hra ▸ hrp).symm, hxkey.2.trans (hra ▸ hre).symm⟩
    · rcases List.mem_cons.mp hx with hxa | hxmem
      · exfalso
        have := hfree r hrmem
        rw [Bool.not_eq_true', decide_eq_false_iff_not] at this
        exact this ⟨hrp.trans (hxa ▸ hxkey).1.symm, hre.trans (hxa ▸ hxkey).2.symm⟩
      · exact ih hdk.2 hrmem x hxmem hxkey

theorem find?_key_none (p ef : Str) (rs : List FileRecord)
    (h : keyFree p ef rs = true) :
    rs.find? (fun r => decide (r.path = p ∧ r.encodedFilename = ef)) = none := by
  apply List.find?_eq_none.mpr
  intro x hx
  have := List.all_eq_true.mp h x hx
  rw [Bool.not_eq_true', decide_eq_false_iff_not] at this
  simpa using this

theorem distinctNames_of_wf (rs : List FileRecord) (h : recordsWf rs = true) :
    distinctNames rs = true := by
  induction rs with
  | nil => rfl
  | cons r rest ih =>
    rw [recordsWf, Bool.and_eq_true, encodedConsistent, List.all_cons, Bool.and_eq_true,
      distinctKeys, Bool.and_eq_true] at h
    obtain ⟨⟨hre, hrest⟩, hfree, hdk⟩ := h
    rw [distinctNames, Bool.and_eq_true]
    constructor
    · rw [nameFree, List.all_eq_true]
      intro x hx
      rw [Bool.not_eq_true', decide_eq_false_iff_not]
      intro hxn
      have hxe := List.all_eq_true.mp hrest x hx
      rw [decide_eq_true_eq] at hxe hre
      have hkf := List.all_eq_true.mp hfree x hx
      rw [Bool.not_eq_true', decide_eq_false_iff_not] at hkf
      exact hkf ⟨hxn.1, by rw [hxe, hxn.2, ← hre]⟩
    · exact ih (by rw [recordsWf, Bool.and_eq_true]; exact ⟨hrest, hdk⟩)

theorem distinct_name_pairs (rs : List FileRecord) (h : distinctNames rs = true)
    (r r' : FileRecord) (hr : r ∈ rs) (hr' : r' ∈ rs) (hne : r ≠ r') :
    ¬(r'.path = r.path ∧ r'.filename = r.filename) := by
  induction rs with
  | nil => cases hr
  | cons a rest ih =>
    rw [distinctNames, Bool.and_eq_true] at h
    have hfree := List.all_eq_true.mp h.1
    rcases List.mem_cons.mp hr with hra | hrmem
    · rcases List.mem_cons.mp hr' with hr'a | hr'mem
      · exact absurd (hra.trans hr'a.symm) hne
      · have := hfree r' hr'mem
        rw [Bool.not_eq_true', decide_eq_false_iff_not] at this
        intro hk
        exact this ⟨hk.1.trans (congrArg FileRecord.path hra), hk.2.trans (congrArg FileRecord.filename hra)⟩
    · rcases List.mem_cons.mp hr' with hr'a | hr'mem
      · have := hfree r hrmem
        rw [Bool.not_eq_true', decide_eq_false_iff_not] at this
        intro hk
        refine this ⟨?_, ?_⟩
        · rw [← hk.1, hr'a]
        · rw [← hk.2, hr'a]
      · exact ih h.2 hrmem hr'mem

theorem blobLookup_cons_pos (e : (Str × Str) × Str) (rest : BlobStore) (a b : Str)
    (h : e.1.1 = a ∧ e.1.2 = b) :
    blobLookup (e :: rest) a b = some e.2 := by
  rw [blobLookup, List.find?_cons_of_pos rest (decide_eq_true_eq.mpr h)]
  rfl

theorem blobLookup_cons_neg (e : (Str × Str) × Str) (rest : BlobStore) (a b : Str)
    (h : ¬(e.1.1 = a ∧ e.1.2 = b)) :
    blobLookup (e :: rest) a b = blobLookup rest a b := by
  simp only [blobLookup]
  rw [List.find?_cons_of_neg rest (by rw [decide_eq_true_eq]; exact h)]

theorem blobLookup_blobRemove_self (p fn : Str) (blobs : BlobStore) :
    blobLookup (blobRemove p fn blobs) p fn = none := by
  rw [blobLookup, blobRemove]
  rw [List.find?_eq_none.mpr, Option.map_none']
  intro e he
  have := (List.mem_filter.mp he).2
  rw [Bool.not_eq_true', decide_eq_false_iff_not] at this
  simpa using this

theorem blobLookup_blobRemove_ne (p fn a b : Str) (blobs : BlobStore)
    (h : ¬(a = p ∧ b = fn)) :
    blobLookup (blobRemove p fn blobs) a b = blobLookup blobs a b := by
  induction blobs with
  | nil => rfl
  | cons e rest ih =>
    rw [blobRemove, List.filter_cons]
    by_cases hme : e.1.1 = p ∧ e.1.2 = fn
    · rw [if_neg (by simp [hme])]
      rw [blobRemove] at ih
      rw [ih, blobLookup_cons_neg]
      intro hab
      exact h ⟨hab.1.symm.trans hme.1, hab.2.symm.trans hme.2⟩
    · rw [if_pos (by rw [Bool.not_eq_true', decide_eq_false_iff_not]; exact hme)]
      by_cases hab : e.1.1 = a ∧ e.1.2 = b
      · rw [blobLookup_cons_pos e _ a b hab, blobLookup_cons_pos e rest a b hab]
      · rw [blobLookup_cons_neg e _ a b hab, blobLookup_cons_neg e rest a b hab]
        rw [blobRemove] at ih
        exact ih

theorem blobLookup_blobWrite_self (p fn content : Str) (blobs : BlobStore) :
    blobLookup (blobWrite p fn content blobs) p fn = some content := by
  rw [blobWrite]
  induction blobs with
  | nil =>
    rw [blobRemove, List.filter_nil, List.nil_append,
      blobLookup_cons_pos _ _ _ _ ⟨rfl, rfl⟩]
  | cons e rest ih =>
    rw [blobRemove, List.filter_cons]
    by_cases hme : e.1.1 = p ∧ e.1.2 = fn
    · rw [if_neg (by simp [hme])]
      rw [blobRemove] at ih
      exact ih
    · rw [if_pos (by rw [Bool.not_eq_true', decide_eq_false_iff_not]; exact hme),
        List.cons_append, blobLookup_cons_neg e _ p fn hme]
      rw [blobRemove] at ih
      exact ih

theorem sweepBlobs_lookup (l : List FileRecord) :
    ∀ (blobs : BlobStore) (dirs : List Str) (a b : Str),
      blobLookup (sweepBlobs blobs dirs l).1 a b =
        if l.any (fun r => decide (r.path = a ∧ r.filename = b)) = true then none
        else blobLookup blobs a b := by
  induction l with
  | nil =>
    intro blobs dirs a b
    rw [sweepBlobs, List.any_nil, if_neg (by simp)]
  | cons r rest ih =>
    intro blobs dirs a b
    rw [sweepBlobs, ih, List.any_cons]
    by_cases hrest : rest.any (fun r => decide (r.path = a ∧ r.filename = b)) = true
    · rw [if_pos hrest, if_pos (by rw [hrest, Bool.or_true])]
    · rw [if_neg hrest]
      by_cases hhead : r.path = a ∧ r.filename = b
      · rw [if_pos (by rw [decide_eq_true_eq.mpr hhead, Bool.true_or]),
          ← hhead.1, ← hhead.2, blobLookup_blobRemove_self]
      · have hcond : ¬((decide (r.path = a ∧ r.filename = b) ||
            rest.any fun x => decide (x.path = a ∧ x.filename = b)) = true) := by
          rw [Bool.or_eq_true]
          rintro (h1 | h2)
          · exact hhead (decide_eq_true_eq.mp h1)
          · exact hrest h2
        rw [if_neg hcond, blobLookup_blobRemove_ne]
        intro hab
        exact hhead ⟨hab.1.symm, hab.2.symm⟩

theorem handleUpload_conflict_eq (st : ServerState)
    (rawFilename cdFilename body mimeHdr mimeExt mimeSniff : Str) (now : Nat)
    (pathDraws codeDraws : Nat → Nat) (d0 d : Str)
    (hdec : queryUnescape rawFilename = some d0)
    (heff : (if d0 = [] then cdFilename else d0) = d)
    (hne : d ≠ [])
    (hbody : body ≠ [])
    (hconf : st.records.any (fun r => decide (r.path = generateRandomPath pathDraws ∧
        r.encodedFilename = queryEscape d)) = true) :
    handleUpload st rawFilename cdFilename body mimeHdr mimeExt mimeSniff now pathDraws codeDraws =
      (.insertFailed,
        { st with
            blobs := blobRemove (generateRandomPath pathDraws) d
              (blobWrite (generateRandomPath pathDraws) d body st.blobs),
            dirs := dirsInsert (generateRandomPath pathDraws) st.dirs }) := by
  simp only [handleUpload, hdec, heff]
  rw [if_neg hne, if_neg hbody, if_pos hconf]

theorem handleUpload_empty_eq (st : ServerState)
    (rawFilename cdFilename mimeHdr mimeExt mimeSniff : Str) (now : Nat)
    (pathDraws codeDraws : Nat → Nat) (d0 d : Str)
    (hdec : queryUnescape rawFilename = some d0)
    (heff : (if d0 = [] then cdFilename else d0) = d)
    (hne : d ≠ []) :
    handleUpload st rawFilename cdFilename [] mimeHdr mimeExt mimeSniff now pathDraws codeDraws =
      (.emptyContent, { st with dirs := dirsInsert (generateRandomPath pathDraws) st.dirs }) := by
  simp only [handleUpload, hdec, heff]
  rw [if_neg hne, if_pos trivial]

theorem handleUpload_success_eq (st : ServerState)
    (rawFilename cdFilename body mimeHdr mimeExt mimeSniff : Str) (now : Nat)
    (pathDraws codeDraws : Nat → Nat) (d0 d : Str)
    (hdec : queryUnescape rawFilename = some d0)
    (heff : (if d0 = [] then cdFilename else d0) = d)
    (hne : d ≠ [])
    (hbody : body ≠ [])
    (hfree : st.records.any (fun r => decide (r.path = generateRandomPath pathDraws ∧
        r.encodedFilename = queryEscape d)) = false) :
    handleUpload st rawFilename cdFilename body mimeHdr mimeExt mimeSniff now pathDraws codeDraws =
      (.success (generateRandomPath pathDraws) (generateRandomString 8 codeDraws) body.length,
        { records := st.records ++
            [{ path := generateRandomPath pathDraws, filename := d,
               encodedFilename := queryEscape d,
               deleteCode := generateRandomString 8 codeDraws,
               uploadTime := now, fileSize := body.length,
               mimeType := if mimeHdr = [] then (if mimeExt = [] then mimeSniff else mimeExt) else mimeHdr,
               downloadCount := 0 }],
          blobs := blobWrite (generateRandomPath pathDraws) d body st.blobs,
          dirs := dirsInsert (generateRandomPath pathDraws) st.dirs }) := by
  simp only [handleUpload, hdec, heff]
  rw [if_neg hne, if_neg hbody, if_neg (by rw [hfree]; exact Bool.false_ne_true)]

theorem handleUpload_success_inversion (st : ServerState)
    (rawFilename cdFilename body mimeHdr mimeExt mimeSniff : Str) (now : Nat)
    (pathDraws codeDraws : Nat → Nat) (p code : Str) (size : Nat)
    (hsucc : (handleUpload st rawFilename cdFilename body mimeHdr mimeExt mimeSniff now
        pathDraws codeDraws).1 = UploadResult.success p code size) :
    p = generateRandomPath pathDraws ∧ code = generateRandomString 8 codeDraws ∧
      size = body.length := by
  rw [handleUpload] at hsucc
  rcases hq : queryUnescape rawFilename with _ | d0 <;> rw [hq] at hsucc
  · exact absurd hsucc (by simp)
  · simp only [] at hsucc
    repeat' split at hsucc
    all_goals first
      | exact ⟨(UploadResult.success.inj hsucc).1.symm,
          (UploadResult.success.inj hsucc).2.1.symm,
          (UploadResult.success.inj hsucc).2.2.symm⟩
      | simp at hsucc

theorem keyFree_of_any_eq_false (p ef : Str) (rs : List FileRecord)
    (h : rs.any (fun r => decide (r.path = p ∧ r.encodedFilename = ef)) = false) :
    keyFree p ef rs = true := by
  rw [keyFree, List.all_eq_true]
  intro x hx
  have := List.any_eq_false.mp h x hx
  rw [Bool.not_eq_true', decide_eq_false_iff_not]
  simpa using this

theorem handleUpload_records_wf (st : ServerState)
    (rawFilename cdFilename body mimeHdr mimeExt mimeSniff : Str) (now : Nat)
    (pathDraws codeDraws : Nat → Nat)
    (hwf : recordsWf st.records = true) :
    recordsWf (handleUpload st rawFilename cdFilename body mimeHdr mimeExt mimeSniff now
      pathDraws codeDraws).2.records = true := by
  rw [handleUpload]
  rcases hq : queryUnescape rawFilename with _ | d0
  · exact hwf
  · simp only []
    by_cases h1 : (if d0 = [] then cdFilename else d0) = []
    · rw [if_pos h1]; exact hwf
    · rw [if_neg h1]
      by_cases h2 : body = []
      · rw [if_pos h2]; exact hwf
      · rw [if_neg h2]
        by_cases h3 : (st.records.any fun r => decide (r.path = generateRandomPath pathDraws ∧
            r.encodedFilename = queryEscape (if d0 = [] then cdFilename else d0))) = true
        · rw [if_pos h3]; exact hwf
        · rw [if_neg h3]
          rw [recordsWf, Bool.and_eq_true] at hwf ⊢
          constructor
          · exact encodedConsistent_append_one _ _ hwf.1 rfl
          · exact distinctKeys_append_one _ _ hwf.2
              (keyFree_of_any_eq_false _ _ _ (Bool.eq_false_iff.mpr h3))

theorem handleUpload_records_unchanged_of_dup (st : ServerState)
    (rawFilename cdFilename body mimeHdr mimeExt mimeSniff : Str) (now : Nat)
    (pathDraws codeDraws : Nat → Nat)
    (hwf : recordsWf st.records = true)
    (hdup : st.records.any (fun r => decide (r.path = generateRandomPath pathDraws ∧
        r.filename = effectiveUploadName rawFilename cdFilename)) = true) :
    (handleUpload st rawFilename cdFilename body mimeHdr mimeExt mimeSniff now
      pathDraws codeDraws).2.records = st.records := by
  rw [handleUpload]
  rcases hq : queryUnescape rawFilename with _ | d0
  · rfl
  · simp only []
    by_cases h1 : (if d0 = [] then cdFilename else d0) = []
    · rw [if_pos h1]
    · rw [if_neg h1]
      by_cases h2 : body = []
      · rw [if_pos h2]
      · rw [if_neg h2]
        by_cases h3 : (st.records.any fun r => decide (r.path = generateRandomPath pathDraws ∧
            r.encodedFilename = queryEscape (if d0 = [] then cdFilename else d0))) = true
        · rw [if_pos h3]
        · exfalso
          apply h3
          obtain ⟨r, hr, hrp⟩ := List.any_eq_true.mp hdup
          rw [decide_eq_true_eq] at hrp
          have heff : effectiveUploadName rawFilename cdFilename =
              (if d0 = [] then cdFilename else d0) := by
            rw [effectiveUploadName, hq]
          rw [heff] at hrp
          apply List.any_eq_true.mpr
          refine ⟨r, hr, ?_⟩
          rw [decide_eq_true_eq]
          refine ⟨hrp.1, ?_⟩
          have hec := List.all_eq_true.mp ((Bool.and_eq_true _ _).mp hwf).1 r hr
          rw [decide_eq_true_eq] at hec
          rw [hec, hrp.2]

theorem handleDownload_records_wf (st : ServerState) (p fn : Str)
    (hwf : recordsWf st.records = true) :
    recordsWf (handleDownload st p fn).2.records = true := by
  rw [handleDownload]
  rcases hq : queryUnescape fn with _ | d
  · exact hwf
  · simp only []
    rcases hf : st.records.find? (fun r => decide (r.path = p ∧
        r.encodedFilename = queryEscape d)) with _ | r
    · rw [hf]; exact hwf
    · rw [hf]
      simp only []
      rcases hb : blobLookup st.blobs p r.filename with _ | content
      · exact hwf
      · simp only []
        rw [recordsWf_bumpCount]
        exact hwf

theorem handleDelete_records_wf (st : ServerState) (p fn rawCode : Str)
    (hwf : recordsWf st.records = true) :
    recordsWf (handleDelete st p fn rawCode).2.1.records = true := by
  rw [handleDelete]
  rcases hq : queryUnescape fn with _ | d
  · exact hwf
  · simp only []
    rcases hc : queryUnescape rawCode with _ | dc
    · exact hwf
    · simp only []
      rcases hf : st.records.find? (fun x => decide (x.path = p ∧
          x.encodedFilename = queryEscape d ∧ x.deleteCode = dc)) with _ | r
      · rw [hf]; exact hwf
      · rw [hf]
        exact recordsWf_filter _ _ hwf

theorem cleanupExpiredFiles_records_wf (st : ServerState) (now : Nat)
    (hwf : recordsWf st.records = true) :
    recordsWf (cleanupExpiredFiles st now).records = true := by
  rw [cleanupExpiredFiles]
  exact recordsWf_filter _ _ hwf

theorem handleDelete_forbidden_eq (st : ServerState) (p fn rawCode d dc : Str)
    (hfn : queryUnescape fn = some d)
    (hcode : queryUnescape rawCode = some dc)
    (hmiss : st.records.find? (fun x => decide (x.path = p ∧
        x.encodedFilename = queryEscape d ∧ x.deleteCode = dc)) = none) :
    handleDelete st p fn rawCode = (DeleteResult.forbidden, st, []) := by
  rw [handleDelete, hfn]
  simp only []
  rw [hcode]
  simp only []
  rw [hmiss]

theorem handleDelete_ok_eq (st : ServerState) (p fn rawCode d dc : Str) (r : FileRecord)
    (hfn : queryUnescape fn = some d)
    (hcode : queryUnescape rawCode = some dc)
    (hfind : st.records.find? (fun x => decide (x.path = p ∧
        x.encodedFilename = queryEscape d ∧ x.deleteCode = dc)) = some r) :
    handleDelete st p fn rawCode =
      (DeleteResult.ok,
        { records := st.records.filter (fun x => !(decide (x.path = p ∧
            x.encodedFilename = queryEscape d ∧ x.deleteCode = dc))),
          blobs := blobRemove p r.filename st.blobs,
          dirs := removeDirBestEffort (blobRemove p r.filename st.blobs) p st.dirs },
        [DeleteEffect.removeBlob p r.filename,
         DeleteEffect.removeRecord p (queryEscape d) dc,
         DeleteEffect.removeDir p]) := by
  rw [handleDelete, hfn]
  simp only []
  rw [hcode]
  simp only []
  rw [hfind]

theorem handleDownload_serve_eq (st : ServerState) (p req d content : Str) (r : FileRecord)
    (hdec : queryUnescape req = some d)
    (hfind : st.records.find? (fun x => decide (x.path = p ∧
        x.encodedFilename = queryEscape d)) = some r)
    (hblob : blobLookup st.blobs p r.filename = some content) :
    handleDownload st p req =
      (DownloadResult.serve r.filename content,
        { st with records := bumpCount p (queryEscape d) st.records }) := by
  rw [handleDownload, hdec]
  simp only []
  rw [hfind]
  simp only []
  rw [hblob]

theorem handleDownload_notFound_of_keyFree (st : ServerState) (p req d : Str)
    (hdec : queryUnescape req = some d)
    (hfree : keyFree p (queryEscape d) st.records = true) :
    handleDownload st p req = (DownloadResult.notFound, st) := by
  rw [handleDownload, hdec]
  simp only []
  rw [find?_key_none _ _ _ hfree]

theorem generateRandomString_length (len : Nat) (draws : Nat → Nat) :
    (generateRandomString len draws).length = len := by
  rw [generateRandomString, List.length_map, List.length_range]

theorem generateRandomString_chars (len : Nat) (draws : Nat → Nat) :
    (generateRandomString len draws).all (fun c => chars.contains c) = true := by
  rw [generateRandomString, List.all_eq_true]
  intro c hc
  obtain ⟨i, hi, hci⟩ := List.mem_map.mp hc
  have hlt : draws i % 62 < chars.length := Nat.mod_lt _ (by decide)
  rw [List.contains_eq_any_beq, List.any_eq_true]
  refine ⟨c, ?_, by simp⟩
  rw [← hci, List.getD_eq_getElem chars 0 hlt]
  exact List.getElem_mem hlt

/-- C1: for every state whose record table satisfies the reachable-state
invariant `recordsWf` (encoded filenames consistent with `url.QueryEscape`
and the `UNIQUE(path, encoded_filename)` constraint), no two live records
share a `(path, filename)` pair; the invariant is preserved by upload,
download, delete and the expiration sweep; and an upload whose insert would
duplicate an existing live `(path, filename)` pair leaves the record table
unchanged (no second record is created). -/
theorem C1_unique_path_filename (st : ServerState)
    (rawFilename cdFilename body mimeHdr mimeExt mimeSniff : Str) (now : Nat)
    (pathDraws codeDraws : Nat → Nat) (p fn rawCode : Str) (now2 : Nat)
    (hwf : recordsWf st.records = true) :
    distinctNames st.records = true
    ∧ recordsWf (handleUpload st rawFilename cdFilename body mimeHdr mimeExt mimeSniff now
        pathDraws codeDraws).2.records = true
    ∧ distinctNames (handleUpload st rawFilename cdFilename body mimeHdr mimeExt mimeSniff now
        pathDraws codeDraws).2.records = true
    ∧ recordsWf (handleDownload st p fn).2.records = true
    ∧ distinctNames (handleDownload st p fn).2.records = true
    ∧ recordsWf (handleDelete st p fn rawCode).2.1.records = true
    ∧ distinctNames (handleDelete st p fn rawCode).2.1.records = true
    ∧ recordsWf (cleanupExpiredFiles st now2).records = true
    ∧ distinctNames (cleanupExpiredFiles st now2).records = true
    ∧ (st.records.any (fun r => decide (r.path = generateRandomPath pathDraws ∧
          r.filename = effectiveUploadName rawFilename cdFilename)) = true →
        (handleUpload st rawFilename cdFilename body mimeHdr mimeExt mimeSniff now
          pathDraws codeDraws).2.records = st.records) := by
  have hu := handleUpload_records_wf st rawFilename cdFilename body mimeHdr mimeExt mimeSniff
    now pathDraws codeDraws hwf
  have hd := handleDownload_records_wf st p fn hwf
  have hdel := handleDelete_records_wf st p fn rawCode hwf
  have hcl := cleanupExpiredFiles_records_wf st now2 hwf
  exact ⟨distinctNames_of_wf _ hwf,
    hu, distinctNames_of_wf _ hu,
    hd, distinctNames_of_wf _ hd,
    hdel, distinctNames_of_wf _ hdel,
    hcl, distinctNames_of_wf _ hcl,
    fun hdup => handleUpload_records_unchanged_of_dup st rawFilename cdFilename body mimeHdr
      mimeExt mimeSniff now pathDraws codeDraws hwf hdup⟩

/-- C1 witness: the invariant hypothesis holds at the concrete state `cState`
and the theorem applies there. -/
theorem C1_unique_path_filename_witness :
    recordsWf cState.records = true ∧ distinctNames cState.records = true :=
  ⟨by decide,
   (C1_unique_path_filename cState [102] [] [1] [] [] [] 0 (fun _ => 0) (fun _ => 0)
     [97] [102] [99] 0 (by decide)).1⟩

/-- C2 counterexample: when the generated path collides with the existing
record of `cState`, the upload surfaces the insert failure immediately, even
though retrying with the next freshly generated candidate (here the stream
producing path `"bbbb"`) would succeed; no retry is performed, refuting the
claimed retry loop. -/
theorem C2_counterexample :
    (handleUpload cState [102] [] [1] [] [] [] 5 (fun _ => 10) (fun _ => 0)).1 =
      UploadResult.insertFailed
    ∧ (handleUpload cState [102] [] [1] [] [] [] 5 (fun _ => 11) (fun _ => 0)).1 =
      UploadResult.success [98, 98, 98, 98] [48, 48, 48, 48, 48, 48, 48, 48] 1 := by
  exact ⟨by decide, by decide⟩

/-- C2 (amended): on a uniqueness conflict from the metadata insert, the
upload coordinator removes the partially written blob and surfaces the
failure to the caller on the first collision; it consumes a single generated
candidate path and performs no retry. -/
theorem C2_conflict_surfaced_without_retry (st : ServerState)
    (rawFilename cdFilename body mimeHdr mimeExt mimeSniff : Str) (now : Nat)
    (pathDraws codeDraws : Nat → Nat) (d0 d : Str)
    (hdec : queryUnescape rawFilename = some d0)
    (heff : (if d0 = [] then cdFilename else d0) = d)
    (hne : d ≠ [])
    (hbody : body ≠ [])
    (hconf : st.records.any (fun r => decide (r.path = generateRandomPath pathDraws ∧
        r.encodedFilename = queryEscape d)) = true) :
    handleUpload st rawFilename cdFilename body mimeHdr mimeExt mimeSniff now
        pathDraws codeDraws =
      (UploadResult.insertFailed,
        { st with
            blobs := blobRemove (generateRandomPath pathDraws) d
              (blobWrite (generateRandomPath pathDraws) d body st.blobs),
            dirs := dirsInsert (generateRandomPath pathDraws) st.dirs }) := by
  subst heff
  exact handleUpload_conflict_eq st rawFilename cdFilename body mimeHdr mimeExt mimeSniff
    now pathDraws codeDraws d0 _ hdec rfl hne hbody hconf

/-- C2 witness: the amended theorem applied at the concrete colliding upload. -/
theorem C2_conflict_surfaced_without_retry_witness :
    queryUnescape [102] = some [102]
    ∧ handleUpload cState [102] [] [1] [] [] [] 5 (fun _ => 10) (fun _ => 0) =
      (UploadResult.insertFailed,
        { cState with
            blobs := blobRemove (generateRandomPath (fun _ => 10)) [102]
              (blobWrite (generateRandomPath (fun _ => 10)) [102] [1] cState.blobs),
            dirs := dirsInsert (generateRandomPath (fun _ => 10)) cState.dirs }) :=
  ⟨by decide,
   C2_conflict_surfaced_without_retry cState [102] [] [1] [] [] [] 5
     (fun _ => 10) (fun _ => 0) [102] [102] (by decide) (by decide) (by decide)
     (by decide) (by decide)⟩

/-- C3 counterexample: with an empty record table — so no record with the
requested `(path, filename)` exists at all — the deletion handler answers 403
Forbidden, not the 404 NotFound the claim requires for a missing record. -/
theorem C3_counterexample :
    (handleDelete emptyState [112] [102] [99]).1 = DeleteResult.forbidden
    ∧ (handleDelete emptyState [112] [102] [99]).1 ≠ DeleteResult.notFound := by
  exact ⟨by decide, by decide⟩

/-- C3 (amended): the code-verified lookup does not distinguish a missing
record from a wrong code: whenever no row matches the full
`(path, encoded filename, delete code)` triple — whether the record does not
exist or exists under a different code — the handler returns Forbidden, never
NotFound; NotFound arises only from an undecodable filename. -/
theorem C3_lookup_conflates_missing_and_wrong_code (st : ServerState)
    (p fn rawCode d dc : Str)
    (hfn : queryUnescape fn = some d)
    (hcode : queryUnescape rawCode = some dc)
    (hmiss : st.records.find? (fun x => decide (x.path = p ∧
        x.encodedFilename = queryEscape d ∧ x.deleteCode = dc)) = none) :
    (handleDelete st p fn rawCode).1 = DeleteResult.forbidden
    ∧ (handleDelete st p fn rawCode).1 ≠ DeleteResult.notFound := by
  rw [handleDelete_forbidden_eq st p fn rawCode d dc hfn hcode hmiss]
  exact ⟨rfl, fun h => DeleteResult.noConfusion h⟩

/-- C3 witness: the amended theorem applied at a state where the record
exists but the supplied code is wrong. -/
theorem C3_lookup_conflates_missing_and_wrong_code_witness :
    queryUnescape [102] = some [102]
    ∧ queryUnescape [99] = some [99]
    ∧ (handleDelete cState [97, 97, 97, 97] [102] [99]).1 = DeleteResult.forbidden
    ∧ (handleDelete cState [97, 97, 97, 97] [102] [99]).1 ≠ DeleteResult.notFound :=
  ⟨by decide, by decide,
   C3_lookup_conflates_missing_and_wrong_code cState [97, 97, 97, 97] [102] [99]
     [102] [99] (by decide) (by decide) (by decide)⟩

/-- C4 counterexample: a deletion request with an empty (missing) delete code
against the live record of `cState` is not rejected as a client input error;
it reaches the store lookup and comes back 403 Forbidden — the same outcome
as a wrong code. -/
theorem C4_counterexample :
    (handleDelete cState [97, 97, 97, 97] [102] []).1 = DeleteResult.forbidden
    ∧ (handleDelete cState [97, 97, 97, 97] [102] []).1 ≠ DeleteResult.badCode := by
  exact ⟨by decide, by decide⟩

/-- C4 (amended): an empty delete code is not rejected before I/O; the empty
string decodes successfully and is passed to the store lookup, and since
every stored delete code is non-empty the request fails with the same
Forbidden outcome as a wrong code, not with a distinct client-input error. -/
theorem C4_empty_code_reaches_lookup (st : ServerState) (p fn d : Str)
    (hfn : queryUnescape fn = some d)
    (hcodes : st.records.all (fun r => decide (r.deleteCode ≠ [])) = true) :
    (handleDelete st p fn []).1 = DeleteResult.forbidden
    ∧ (handleDelete st p fn []).1 ≠ DeleteResult.badCode := by
  have hmiss : st.records.find? (fun x => decide (x.path = p ∧
      x.encodedFilename = queryEscape d ∧ x.deleteCode = ([] : Str))) = none := by
    apply List.find?_eq_none.mpr
    intro x hx
    have := List.all_eq_true.mp hcodes x hx
    rw [decide_eq_true_eq] at this
    rw [decide_eq_true_eq]
    intro hcontra
    exact this hcontra.2.2
  rw [handleDelete_forbidden_eq st p fn [] d [] hfn rfl hmiss]
  exact ⟨rfl, fun h => DeleteResult.noConfusion h⟩

/-- C4 witness: the amended theorem applied at `cState`, whose sole record
has the non-empty delete code `"00000000"`. -/
theorem C4_empty_code_reaches_lookup_witness :
    queryUnescape [102] = some [102]
    ∧ cState.records.all (fun r => decide (r.deleteCode ≠ [])) = true
    ∧ (handleDelete cState [97, 97, 97, 97] [102] []).1 = DeleteResult.forbidden :=
  ⟨by decide, by decide,
   (C4_empty_code_reaches_lookup cState [97, 97, 97, 97] [102] [102]
     (by decide) (by decide)).1⟩

/-- C5 counterexample: an upload with empty content is rejected, but not
before all I/O — the per-path directory has already been created by
`os.MkdirAll`, so the rejection does not leave the stores unchanged. -/
theorem C5_counterexample :
    (handleUpload emptyState [102] [] [] [] [] [] 0 (fun _ => 0) (fun _ => 0)).1 =
      UploadResult.emptyContent
    ∧ (handleUpload emptyState [102] [] [] [] [] [] 0 (fun _ => 0) (fun _ => 0)).2.dirs ≠
      emptyState.dirs := by
  exact ⟨by decide, by decide⟩

/-- C5 (amended): an upload with empty content is rejected before the blob
write and the metadata insert — the record table and the blob store are left
unchanged — but only after the per-path directory has been created, so the
rejection can leave behind one newly created empty directory. -/
theorem C5_empty_content_rejected_after_mkdir (st : ServerState)
    (rawFilename cdFilename mimeHdr mimeExt mimeSniff : Str) (now : Nat)
    (pathDraws codeDraws : Nat → Nat) (d0 d : Str)
    (hdec : queryUnescape rawFilename = some d0)
    (heff : (if d0 = [] then cdFilename else d0) = d)
    (hne : d ≠ []) :
    handleUpload st rawFilename cdFilename [] mimeHdr mimeExt mimeSniff now
        pathDraws codeDraws =
      (UploadResult.emptyContent,
        { st with dirs := dirsInsert (generateRandomPath pathDraws) st.dirs })
    ∧ (handleUpload st rawFilename cdFilename [] mimeHdr mimeExt mimeSniff now
        pathDraws codeDraws).2.records = st.records
    ∧ (handleUpload st rawFilename cdFilename [] mimeHdr mimeExt mimeSniff now
        pathDraws codeDraws).2.blobs = st.blobs := by
  subst heff
  rw [handleUpload_empty_eq st rawFilename cdFilename mimeHdr mimeExt mimeSniff now
    pathDraws codeDraws d0 _ hdec rfl hne]
  exact ⟨rfl, rfl, rfl⟩

/-- C5 witness: the amended theorem applied at a concrete empty-bodied
upload against the empty state. -/
theorem C5_empty_content_rejected_after_mkdir_witness :
    queryUnescape [102] = some [102]
    ∧ handleUpload emptyState [102] [] [] [] [] [] 0 (fun _ => 0) (fun _ => 0) =
      (UploadResult.emptyContent,
        { emptyState with dirs := dirsInsert (generateRandomPath (fun _ => 0)) emptyState.dirs }) :=
  ⟨by decide,
   (C5_empty_content_rejected_after_mkdir emptyState [102] [] [] [] [] 0
     (fun _ => 0) (fun _ => 0) [102] [102] (by decide) (by decide) (by decide)).1⟩

/-- C6: when the metadata insert fails (in the model, on the uniqueness
conflict — the handler runs the same rollback for every insert error), the
just-written blob is removed before the error is surfaced: the handler
reports the failure, no blob remains for the attempted `(path, filename)`,
and the record table is unchanged. -/
theorem C6_insert_failure_rolls_back_blob (st : ServerState)
    (rawFilename cdFilename body mimeHdr mimeExt mimeSniff : Str) (now : Nat)
    (pathDraws codeDraws : Nat → Nat) (d0 d : Str)
    (hdec : queryUnescape rawFilename = some d0)
    (heff : (if d0 = [] then cdFilename else d0) = d)
    (hne : d ≠ [])
    (hbody : body ≠ [])
    (hconf : st.records.any (fun r => decide (r.path = generateRandomPath pathDraws ∧
        r.encodedFilename = queryEscape d)) = true) :
    (handleUpload st rawFilename cdFilename body mimeHdr mimeExt mimeSniff now
        pathDraws codeDraws).1 = UploadResult.insertFailed
    ∧ blobLookup (handleUpload st rawFilename cdFilename body mimeHdr mimeExt mimeSniff now
        pathDraws codeDraws).2.blobs (generateRandomPath pathDraws) d = none
    ∧ (handleUpload st rawFilename cdFilename body mimeHdr mimeExt mimeSniff now
        pathDraws codeDraws).2.records = st.records := by
  subst heff
  rw [handleUpload_conflict_eq st rawFilename cdFilename body mimeHdr mimeExt mimeSniff
    now pathDraws codeDraws d0 _ hdec rfl hne hbody hconf]
  exact ⟨rfl, blobLookup_blobRemove_self _ _ _, rfl⟩

/-- C6 witness: the theorem applied at the concrete colliding upload against
`cState`. -/
theorem C6_insert_failure_rolls_back_blob_witness :
    queryUnescape [102] = some [102]
    ∧ (handleUpload cState [102] [] [1] [] [] [] 5 (fun _ => 10) (fun _ => 0)).1 =
      UploadResult.insertFailed
    ∧ blobLookup (handleUpload cState [102] [] [1] [] [] [] 5 (fun _ => 10)
        (fun _ => 0)).2.blobs (generateRandomPath (fun _ => 10)) [102] = none :=
  ⟨by decide,
   (C6_insert_failure_rolls_back_blob cState [102] [] [1] [] [] [] 5 (fun _ => 10)
     (fun _ => 0) [102] [102] (by decide) (by decide) (by decide) (by decide) (by decide)).1,
   (C6_insert_failure_rolls_back_blob cState [102] [] [1] [] [] [] 5 (fun _ => 10)
     (fun _ => 0) [102] [102] (by decide) (by decide) (by decide) (by decide) (by decide)).2.1⟩

/-- C7: a deletion whose triple lookup finds a record with the matching
delete code succeeds, performs its effects in the order blob removal, then
record deletion, then best-effort directory removal; afterwards no blob and
no record remain for that `(path, filename)` address, and a subsequent fetch
of the same address returns NotFound. -/
theorem C7_delete_with_matching_code (st : ServerState)
    (p fn rawCode d dc : Str) (r : FileRecord)
    (hwf : recordsWf st.records = true)
    (hfn : queryUnescape fn = some d)
    (hcode : queryUnescape rawCode = some dc)
    (hfind : st.records.find? (fun x => decide (x.path = p ∧
        x.encodedFilename = queryEscape d ∧ x.deleteCode = dc)) = some r) :
    (handleDelete st p fn rawCode).1 = DeleteResult.ok
    ∧ (handleDelete st p fn rawCode).2.2 =
      [DeleteEffect.removeBlob p r.filename,
       DeleteEffect.removeRecord p (queryEscape d) dc,
       DeleteEffect.removeDir p]
    ∧ blobLookup (handleDelete st p fn rawCode).2.1.blobs p r.filename = none
    ∧ keyFree p (queryEscape d) (handleDelete st p fn rawCode).2.1.records = true
    ∧ (handleDownload (handleDelete st p fn rawCode).2.1 p fn).1 = DownloadResult.notFound := by
  have hrmem := List.mem_of_find?_eq_some hfind
  have hrpred := List.find?_some hfind
  rw [decide_eq_true_eq] at hrpred
  obtain ⟨hrp, hre, hrc⟩ := hrpred
  have hdk := ((Bool.and_eq_true _ _).mp hwf).2
  have huniq := unique_by_key st.records hdk r hrmem p (queryEscape d) hrp hre
  have hkf : keyFree p (queryEscape d) (st.records.filter (fun x => !(decide (x.path = p ∧
      x.encodedFilename = queryEscape d ∧ x.deleteCode = dc)))) = true := by
    rw [keyFree, List.all_eq_true]
    intro x hx
    rw [Bool.not_eq_true', decide_eq_false_iff_not]
    intro hxkey
    obtain ⟨hxmem, hxfil⟩ := List.mem_filter.mp hx
    have hxr := huniq x hxmem hxkey
    rw [Bool.not_eq_true', decide_eq_false_iff_not] at hxfil
    exact hxfil ⟨hxkey.1, hxkey.2, by rw [hxr]; exact hrc⟩
  rw [handleDelete_ok_eq st p fn rawCode d dc r hfn hcode hfind]
  refine ⟨rfl, rfl, blobLookup_blobRemove_self _ _ _, hkf, ?_⟩
  rw [handleDownload_notFound_of_keyFree _ p fn d hfn hkf]

/-- C7 witness: the theorem applied at `cState` with the correct delete code
of its record. -/
theorem C7_delete_with_matching_code_witness :
    recordsWf cState.records = true
    ∧ (handleDelete cState [97, 97, 97, 97] [102] [48, 48, 48, 48, 48, 48, 48, 48]).1 =
      DeleteResult.ok
    ∧ blobLookup (handleDelete cState [97, 97, 97, 97] [102]
        [48, 48, 48, 48, 48, 48, 48, 48]).2.1.blobs [97, 97, 97, 97] cRecord.filename = none
    ∧ (handleDownload (handleDelete cState [97, 97, 97, 97] [102]
        [48, 48, 48, 48, 48, 48, 48, 48]).2.1 [97, 97, 97, 97] [102]).1 =
      DownloadResult.notFound :=
  ⟨by decide,
   (C7_delete_with_matching_code cState [97, 97, 97, 97] [102]
     [48, 48, 48, 48, 48, 48, 48, 48] [102] [48, 48, 48, 48, 48, 48, 48, 48] cRecord
     (by decide) (by decide) (by decide) (by decide)).1,
   (C7_delete_with_matching_code cState [97, 97, 97, 97] [102]
     [48, 48, 48, 48, 48, 48, 48, 48] [102] [48, 48, 48, 48, 48, 48, 48, 48] cRecord
     (by decide) (by decide) (by decide) (by decide)).2.2.1,
   (C7_delete_with_matching_code cState [97, 97, 97, 97] [102]
     [48, 48, 48, 48, 48, 48, 48, 48] [102] [48, 48, 48, 48, 48, 48, 48, 48] cRecord
     (by decide) (by decide) (by decide) (by decide)).2.2.2.2⟩

/-- C8: after one run of the expiration sweep at time `now`, a record older
than the three-day retention window is gone from the record table and its
blob is gone from the blob store (a blob already missing is simply absent,
treated as success), while a record younger than the window keeps both its
table row and its blob untouched. -/
theorem C8_sweep_removes_expired_keeps_fresh (st : ServerState) (now : Nat)
    (rOld rNew : FileRecord)
    (hwf : recordsWf st.records = true)
    (hOldMem : rOld ∈ st.records) (hOldExp : isExpired now rOld = true)
    (hNewMem : rNew ∈ st.records) (hNewFresh : isExpired now rNew = false) :
    rOld ∉ (cleanupExpiredFiles st now).records
    ∧ blobLookup (cleanupExpiredFiles st now).blobs rOld.path rOld.filename = none
    ∧ rNew ∈ (cleanupExpiredFiles st now).records
    ∧ blobLookup (cleanupExpiredFiles st now).blobs rNew.path rNew.filename =
      blobLookup st.blobs rNew.path rNew.filename := by
  rw [cleanupExpiredFiles]
  simp only []
  refine ⟨?_, ?_, ?_, ?_⟩
  · intro hmem
    have := (List.mem_filter.mp hmem).2
    rw [hOldExp] at this
    exact Bool.noConfusion this
  · rw [sweepBlobs_lookup]
    rw [if_pos]
    apply List.any_eq_true.mpr
    refine ⟨rOld, List.mem_filter.mpr ⟨hOldMem, hOldExp⟩, ?_⟩
    rw [decide_eq_true_eq]
    exact ⟨rfl, rfl⟩
  · exact List.mem_filter.mpr ⟨hNewMem, by rw [hNewFresh]; rfl⟩
  · rw [sweepBlobs_lookup]
    rw [if_neg]
    intro hany
    obtain ⟨x, hxmem, hxp⟩ := List.any_eq_true.mp hany
    rw [decide_eq_true_eq] at hxp
    obtain ⟨hxm, hxe⟩ := List.mem_filter.mp hxmem
    have hxne : x ≠ rNew := by
      intro hcontra
      rw [hcontra, hNewFresh] at hxe
      exact Bool.noConfusion hxe
    have hnames := distinct_name_pairs st.records (distinctNames_of_wf _ hwf)
      x rNew hxm hNewMem hxne
    exact hnames ⟨hxp.1.symm ▸ rfl, hxp.2.symm ▸ rfl⟩

/-- C8 witness: the theorem applied at `sweepState` at time 300000, where
`cRecord` (uploaded at time 0) is expired and `freshRecord` (uploaded at
time 100000) is inside the window. -/
theorem C8_sweep_removes_expired_keeps_fresh_witness :
    recordsWf sweepState.records = true
    ∧ isExpired 300000 cRecord = true
    ∧ isExpired 300000 freshRecord = false
    ∧ (cRecord ∉ (cleanupExpiredFiles sweepState 300000).records
      ∧ blobLookup (cleanupExpiredFiles sweepState 300000).blobs cRecord.path
        cRecord.filename = none
      ∧ freshRecord ∈ (cleanupExpiredFiles sweepState 300000).records
      ∧ blobLookup (cleanupExpiredFiles sweepState 300000).blobs freshRecord.path
        freshRecord.filename =
        blobLookup sweepState.blobs freshRecord.path freshRecord.filename) :=
  ⟨by decide, by decide, by decide,
   C8_sweep_removes_expired_keeps_fresh sweepState 300000 cRecord freshRecord
     (by decide) (by decide) (by decide) (by decide) (by decide)⟩

/-- C9: every successful upload returns a path of exactly 4 characters and a
deletion code of exactly 8 characters, with every character of both drawn
from the 62-character alphanumeric alphabet 0-9a-zA-Z. -/
theorem C9_identifier_shape (st : ServerState)
    (rawFilename cdFilename body mimeHdr mimeExt mimeSniff : Str) (now : Nat)
    (pathDraws codeDraws : Nat → Nat) (p code : Str) (size : Nat)
    (hsucc : (handleUpload st rawFilename cdFilename body mimeHdr mimeExt mimeSniff now
        pathDraws codeDraws).1 = UploadResult.success p code size) :
    p.length = 4 ∧ code.length = 8
    ∧ p.all (fun c => chars.contains c) = true
    ∧ code.all (fun c => chars.contains c) = true
    ∧ chars.length = 62 := by
  obtain ⟨hp, hc, hs⟩ := handleUpload_success_inversion st rawFilename cdFilename body
    mimeHdr mimeExt mimeSniff now pathDraws codeDraws p code size hsucc
  refine ⟨?_, ?_, ?_, ?_, rfl⟩
  · rw [hp, generateRandomPath, generateRandomString_length]
  · rw [hc, generateRandomString_length]
  · rw [hp, generateRandomPath]
    exact generateRandomString_chars 4 pathDraws
  · rw [hc]
    exact generateRandomString_chars 8 codeDraws

/-- C9 witness: the theorem applied at a concrete successful upload. -/
theorem C9_identifier_shape_witness :
    (handleUpload emptyState [102] [] [1] [] [] [] 0 (fun _ => 0) (fun _ => 1)).1 =
      UploadResult.success [48, 48, 48, 48] [49, 49, 49, 49, 49, 49, 49, 49] 1
    ∧ ([48, 48, 48, 48] : Str).length = 4
    ∧ ([49, 49, 49, 49, 49, 49, 49, 49] : Str).length = 8
    ∧ ([48, 48, 48, 48] : Str).all (fun c => chars.contains c) = true
    ∧ ([49, 49, 49, 49, 49, 49, 49, 49] : Str).all (fun c => chars.contains c) = true :=
  ⟨by decide,
   (C9_identifier_shape emptyState [102] [] [1] [] [] [] 0 (fun _ => 0) (fun _ => 1)
     [48, 48, 48, 48] [49, 49, 49, 49, 49, 49, 49, 49] 1 (by decide)).1,
   (C9_identifier_shape emptyState [102] [] [1] [] [] [] 0 (fun _ => 0) (fun _ => 1)
     [48, 48, 48, 48] [49, 49, 49, 49, 49, 49, 49, 49] 1 (by decide)).2.1,
   (C9_identifier_shape emptyState [102] [] [1] [] [] [] 0 (fun _ => 0) (fun _ => 1)
     [48, 48, 48, 48] [49, 49, 49, 49, 49, 49, 49, 49] 1 (by decide)).2.2.1,
   (C9_identifier_shape emptyState [102] [] [1] [] [] [] 0 (fun _ => 0) (fun _ => 1)
     [48, 48, 48, 48] [49, 49, 49, 49, 49, 49, 49, 49] 1 (by decide)).2.2.2.1⟩

/-- C10: record lookup on fetch is invariant under percent-encoding of the
filename: for a stored record whose blob is present, any request filename
that URL-unescapes to the record's stored filename is re-escaped to the
record's stored `encoded_filename` key, and the download handler resolves it
to that record and serves its content. -/
theorem C10_fetch_invariant_under_encoding (st : ServerState)
    (p req d content : Str) (r : FileRecord)
    (hwf : recordsWf st.records = true)
    (hdec : queryUnescape req = some d)
    (hr : r ∈ st.records) (hp : r.path = p) (hf : r.filename = d)
    (hblob : blobLookup st.blobs p r.filename = some content) :
    (handleDownload st p req).1 = DownloadResult.serve r.filename content := by
  have hec := List.all_eq_true.mp ((Bool.and_eq_true _ _).mp hwf).1 r hr
  rw [decide_eq_true_eq] at hec
  have hre : r.encodedFilename = queryEscape d := by rw [hec, hf]
  have hdk := ((Bool.and_eq_true _ _).mp hwf).2
  have huniq := unique_by_key st.records hdk r hr p (queryEscape d) hp hre
  have hfind : st.records.find? (fun x => decide (x.path = p ∧
      x.encodedFilename = queryEscape d)) = some r := by
    apply find_of_mem_unique _ _ r hr
    · rw [decide_eq_true_eq]; exact ⟨hp, hre⟩
    · intro x hx hxp
      rw [decide_eq_true_eq] at hxp
      exact huniq x hx hxp
  rw [handleDownload_serve_eq st p req d content r hdec hfind hblob]

/-- C10 witness: the theorem applied at `cState` with the percent-encoded
request filename `"%66"`, which decodes to the stored filename `"f"`. -/
theorem C10_fetch_invariant_under_encoding_witness :
    queryUnescape [37, 54, 54] = some [102]
    ∧ recordsWf cState.records = true
    ∧ (handleDownload cState [97, 97, 97, 97] [37, 54, 54]).1 =
      DownloadResult.serve cRecord.filename [1] :=
  ⟨by decide, by decide,
   C10_fetch_invariant_under_encoding cState [97, 97, 97, 97] [37, 54, 54] [102] [1]
     cRecord (by decide) (by decide) (by decide) (by decide) (by decide) (by decide)⟩
